import Mathlib

/-
Verification of the pretty-printer formatting engine.

The embedding models JavaScript runtime values as a tree of primitives plus
references into a heap (an association list from object identity to object
contents), so that object identity, sharing and cycles are expressible.
The formatter from src/formatter/formatter.ts is translated into a pure
function threading the mutable per-instance state (the visited set `_seen`
and the `CircularIdGenerator`) explicitly, and returning `Except Unit`
because `getConstructorName` can throw.  Recursion is driven by a fuel
parameter; `formatTop` supplies `depth + 1` fuel, which is never exhausted
because the source's own depth guard (`_hitMaxDepth`) stops recursion at
`_currentDepth >= options.depth`.
-/

set_option maxHeartbeats 4000000
set_option maxRecDepth 4000

namespace PrettyPrinter

/-- Left square bracket, used by `_wrap` call sites. -/
def sLB : String := "["

/-- Right square bracket. -/
def sRB : String := "]"

/-- Left curly brace wrapper. -/
def sLC : String := "\x7b"

/-- Right curly brace wrapper. -/
def sRC : String := "\x7d"

/-- Empty string. -/
def sEmp : String := ""

/-- Newline. -/
def sNl : String := "\n"

/-- Single space. -/
def sSpace : String := " "

/-- Comma followed by newline, appended after every formatted entry. -/
def sCommaNl : String := ",\n"

/-- Hash sign used before circular ids. -/
def sHash : String := "#"

/-- Double quote. -/
def sDQ : String := "\""

/-- Backtick, wrapping multiline strings. -/
def sBT : String := "`"

/-- Text of the circular-reference marker. -/
def sCircularTxt : String := "Circular"

/-- Fallback shown when a circular id cannot be found. -/
def sUnknownTxt : String := "unknown"

/-- Rendering of the null value. -/
def sNullTxt : String := "null"

/-- Rendering of undefined. -/
def sUndefinedTxt : String := "undefined"

/-- Rendering of true. -/
def sTrueTxt : String := "true"

/-- Rendering of false. -/
def sFalseTxt : String := "false"

/-- Suffix appended to bigint renderings. -/
def sNSuffix : String := "n"

/-- Separator of generic record entries. -/
def sColonSep : String := ": "

/-- Separator of map entries. -/
def sArrowSep : String := " => "

/-- Space and opening brace of the Date rendering. -/
def sDateL : String := " \x7b "

/-- Closing part of the Date rendering. -/
def sDateR : String := " \x7d"

/-- The property name probed by the array-like check. -/
def sLenKey : String := "length"

/-- `DENO_FN_FORMAT_INDENTATION_SIZE` from the source. -/
def DENO_FN_FORMAT_INDENTATION_SIZE : Nat := 4

/-- `FormatterOptions` with all fields required (the merge with
`defaultFormatterOptions` always produces all fields). -/
structure FormatterOptions where
  indent : Nat
  depth : Nat
  indentRoot : Bool
  escapeString : Bool
  circularId : Bool
deriving DecidableEq, Repr

/-- `defaultFormatterOptions` from the source. -/
def defaultFormatterOptions : FormatterOptions :=
  ⟨2, 20, false, false, false⟩

/-- Constructor information of a heap object: `absent` models a value whose
`constructor` property is nullish (so reading `.name` throws), `nullishName`
models a constructor whose `name` is nullish (the `??` fallback fires), and
`named s` models the ordinary case `obj.constructor.name = s`. -/
inductive CtorInfo where
  | absent
  | nullishName
  | named (s : String)
deriving DecidableEq, Repr

/-- A JavaScript runtime value: primitives are carried directly, objects are
references into a heap.  Numbers and bigints are modelled as integers;
symbols and functions carry their `String(...)` / `Function.prototype.toString`
text. -/
inductive JSValue where
  | undef
  | null
  | bool (b : Bool)
  | num (n : Int)
  | bigintVal (n : Int)
  | str (s : String)
  | sym (printed : String)
  | fn (src : String)
  | obj (r : Nat)
deriving DecidableEq, Repr

/-- Contents of a heap object.  `regexp` carries its `String(regex)` text,
`date` its `toISOString` text, `mapObj`/`setObj` their entries/elements in
iteration order, and `plain` a generic object: its enumerable own string
properties in `Object.keys` order plus, optionally, the element sequence its
`Symbol.iterator` would produce. -/
inductive HObj where
  | regexp (text : String) (ctor : CtorInfo)
  | date (iso : String) (ctor : CtorInfo)
  | mapObj (entries : List (JSValue × JSValue)) (ctor : CtorInfo)
  | setObj (elems : List JSValue) (ctor : CtorInfo)
  | plain (props : List (String × JSValue)) (iterElems : Option (List JSValue)) (ctor : CtorInfo)
deriving DecidableEq, Repr

/-- The heap: object identity (a natural number) to object contents. -/
abbrev Heap := List (Nat × HObj)

/-- The constructor information of a heap object. -/
def HObj.ctorInfo : HObj → CtorInfo
  | .regexp _ c => c
  | .date _ c => c
  | .mapObj _ c => c
  | .setObj _ c => c
  | .plain _ _ c => c

/-- The tag produced by `Object.prototype.toString.call(obj)` with the
`[object ` and `]` parts stripped, per builtin class. -/
def HObj.builtinTag : HObj → String
  | .regexp _ _ => "RegExp"
  | .date _ _ => "Date"
  | .mapObj _ _ => "Map"
  | .setObj _ _ => "Set"
  | .plain _ _ _ => "Object"

/-- `getConstructorName` from src/utils.ts:
`obj.constructor.name ?? toString.call(obj).replace(...)`.
When `obj.constructor` is nullish the member access `.name` itself throws a
TypeError, so only a nullish `name` reaches the `??` fallback. -/
def getConstructorName (h : HObj) : Except Unit String :=
  match h.ctorInfo with
  | .absent => .error ()
  | .nullishName => .ok h.builtinTag
  | .named s => .ok s

/-- `CircularIdGenerator` from src/formatter/circular_id_generator.ts. -/
structure CircularIdGenerator where
  currentId : Nat
  generatedIds : List (Nat × Nat)
deriving DecidableEq, Repr

/-- A fresh generator: `_currentId = 1`, no generated ids. -/
def freshGenerator : CircularIdGenerator := ⟨1, []⟩

/-- `CircularIdGenerator.generateId`: return the memoised id if present,
otherwise allocate `_currentId++`. -/
def CircularIdGenerator.generateId (g : CircularIdGenerator) (r : Nat) :
    Nat × CircularIdGenerator :=
  match g.generatedIds.lookup r with
  | some i => (i, g)
  | none => (g.currentId, ⟨g.currentId + 1, (r, g.currentId) :: g.generatedIds⟩)

/-- Membership test of the `_seen` WeakMap. -/
def seenHas (se : List (Nat × Nat)) (r : Nat) : Bool :=
  (se.lookup r).isSome

/-- `_seen.set`: overwrite the binding if present, else add it. -/
def seenSet (se : List (Nat × Nat)) (r : Nat) (i : Nat) : List (Nat × Nat) :=
  if seenHas se r then se.map (fun p => if p.1 = r then (r, i) else p)
  else (r, i) :: se

/-- `_seen.delete`: drop any binding of `r`. -/
def seenDelete (se : List (Nat × Nat)) (r : Nat) : List (Nat × Nat) :=
  se.filter (fun p => p.1 != r)

/-- The mutable state shared by a formatter and all its children: the
`_seen` WeakMap and the `CircularIdGenerator`. -/
structure FmtState where
  seen : List (Nat × Nat)
  gen : CircularIdGenerator
deriving DecidableEq, Repr

/-- The state of a freshly constructed `Formatter`. -/
def initialState : FmtState := ⟨[], freshGenerator⟩

/-- The per-instance fields of the `Formatter` class other than the shared
mutable state (which is threaded separately): `options`, `_initialIndent`,
`_skipFirstLineIdentation` and `_currentDepth`. -/
structure Formatter where
  options : FormatterOptions
  initialIndent : Nat
  skipFirstLineIdentation : Bool
  currentDepth : Nat
deriving DecidableEq, Repr

/-- A root formatter: `new Formatter(options)` leaves the internal
constructor parameters at their defaults, so `_initialIndent` becomes
`options.indent`, `_skipFirstLineIdentation = false`, `_currentDepth = 1`. -/
def rootFormatter (opts : FormatterOptions) : Formatter :=
  ⟨opts, opts.indent, false, 1⟩

/-- A run of `n` spaces. -/
def spaces (n : Nat) : String :=
  String.mk (List.replicate n ' ')

/-- `_wrap([l, r], content)`. -/
def wrap (l r content : String) : String :=
  l ++ content ++ r

/-- `_formatWithIndent(content, indent)`; every call site that relies on the
default argument passes `f.options.indent` explicitly. -/
def Formatter.formatWithIndent (_f : Formatter) (content : String) (indent : Nat) : String :=
  spaces indent ++ content

/-- `_formatFirstLine(content)`. -/
def Formatter.formatFirstLine (f : Formatter) (content : String) : String :=
  if f.skipFirstLineIdentation || !f.options.indentRoot then content
  else f.formatWithIndent content f.options.indent

/-- `_getChildFormatter(skipFirstLineIdentation?)`: options are spread with
`indent` increased by `_initialIndent` when `indentRoot` is set, and
`indentRoot` forced to `true`; depth grows by one; `_initialIndent` is
passed along. -/
def Formatter.getChildFormatter (f : Formatter) (skip : Bool) : Formatter :=
  ⟨⟨f.options.indent + (if f.options.indentRoot then f.initialIndent else 0),
    f.options.depth, true, f.options.escapeString, f.options.circularId⟩,
   f.initialIndent, skip, f.currentDepth + 1⟩

/-- `formatBigInt`. -/
def Formatter.formatBigInt (f : Formatter) (n : Int) : String :=
  f.formatFirstLine (toString n ++ sNSuffix)

/-- `formatBoolean`. -/
def Formatter.formatBoolean (f : Formatter) (b : Bool) : String :=
  f.formatFirstLine (if b then sTrueTxt else sFalseTxt)

/-- `formatNumber`. -/
def Formatter.formatNumber (f : Formatter) (n : Int) : String :=
  f.formatFirstLine (toString n)

/-- `formatNull`. -/
def Formatter.formatNull (f : Formatter) : String :=
  f.formatFirstLine sNullTxt

/-- `formatUndefined`. -/
def Formatter.formatUndefined (f : Formatter) : String :=
  f.formatFirstLine sUndefinedTxt

/-- `formatSymbol`: `String(sym)` is carried in the value. -/
def Formatter.formatSymbol (f : Formatter) (printed : String) : String :=
  f.formatFirstLine printed

/-- `formatRegExp`: `String(regex)` is carried in the heap object. -/
def Formatter.formatRegExp (f : Formatter) (text : String) : String :=
  f.formatFirstLine text

/-- `formatCircularRef`: the marker is `[Circular]`, or `[Circular#<id>]`
with ids enabled, falling back to `unknown` when `_seen` holds no id. -/
def Formatter.formatCircularRef (f : Formatter) (se : List (Nat × Nat)) (r : Nat) : String :=
  f.formatFirstLine (wrap sLB sRB (sCircularTxt ++
    (if f.options.circularId then
      sHash ++ (match se.lookup r with
        | some i => toString i
        | none => sUnknownTxt)
     else sEmp)))

/-- Split a character list at newlines, in the manner of
`str.split(/\n/)`: the result always has at least one (possibly empty)
piece. -/
def splitNl : List Char → List (List Char)
  | [] => [[]]
  | c :: rest =>
    match splitNl rest with
    | [] => [[]]
    | h :: t => if c = '\n' then [] :: h :: t else (c :: h) :: t

/-- The escape replacement applied under `escapeString`: newline and tab
become their two-character escape sequences. -/
def escapeStr (s : String) : String :=
  String.mk (s.data.foldr (fun c acc =>
    if c = '\n' then '\\' :: 'n' :: acc
    else if c = '\t' then '\\' :: 't' :: acc
    else c :: acc) [])

/-- `formatString`: escape mode replaces control characters and quotes the
result; otherwise a single-line string is double-quoted, and a multiline
string is backtick-quoted with every line after the first indented. -/
def Formatter.formatString (f : Formatter) (s : String) : String :=
  if f.options.escapeString then
    f.formatFirstLine (wrap sDQ sDQ (escapeStr s))
  else
    match splitNl s.data with
    | [] => f.formatFirstLine (wrap sDQ sDQ s)
    | [_] => f.formatFirstLine (wrap sDQ sDQ s)
    | l0 :: rest =>
      f.formatFirstLine (wrap sBT sBT (String.intercalate sNl
        (String.mk l0 :: rest.map (fun l => f.formatWithIndent (String.mk l) f.options.indent))))

/-- The length of the leading run of spaces. -/
def leadCount : List Char → Nat
  | [] => 0
  | c :: rest => if c = ' ' then leadCount rest + 1 else 0

/-- `formatFunction`: a single-line source is returned unmodified; otherwise
the first line goes through `_formatFirstLine`, the last line's leading
whitespace (matched by `/^ +/`, so only when nonempty) is replaced by the
current indentation and its length recorded, and every interior line whose
leading spaces reach that length has them replaced by an indentation of
`options.indent + _initialIndent * excess / DENO_FN_FORMAT_INDENTATION_SIZE`. -/
def Formatter.formatFunction (f : Formatter) (src : String) : String :=
  match splitNl src.data with
  | [] => src
  | [_] => src
  | l0 :: rest =>
    let first := f.formatFirstLine (String.mk l0)
    match rest.getLast? with
    | none => src
    | some lastL =>
      let mid := rest.dropLast
      let extra := leadCount lastL
      let lastS :=
        if extra = 0 then String.mk lastL
        else f.formatWithIndent sEmp f.options.indent ++ String.mk (lastL.drop extra)
      let midS := mid.map (fun l =>
        let m := leadCount l
        if m ≥ extra then
          f.formatWithIndent sEmp
            (f.options.indent + f.initialIndent * (m - extra) / DENO_FN_FORMAT_INDENTATION_SIZE)
            ++ String.mk (l.drop m)
        else String.mk l)
      String.intercalate sNl (first :: midS ++ [lastS])

/-- `formatDate`: `getConstructorName(date)` followed by the ISO text in
braces; propagates the TypeError of `getConstructorName`. -/
def Formatter.formatDate (f : Formatter) (h : HObj) (iso : String) : Except Unit String :=
  match getConstructorName h with
  | .error e => .error e
  | .ok nm => .ok (f.formatFirstLine (nm ++ sDateL ++ iso ++ sDateR))

/-- An item produced by a composite's entry generator: either a bare value
or an `Entry` (key, value, separator). -/
inductive EItem where
  | bare (v : JSValue)
  | entry (key : JSValue) (value : JSValue) (sep : String)
deriving DecidableEq, Repr

/-- The generator of `formatArray`: positions `0 .. length-1`, each read as
the property named by the decimal index (absent positions are undefined). -/
def arrayItems (props : List (String × JSValue)) (len : Int) : List EItem :=
  (List.range len.toNat).map (fun i =>
    EItem.bare ((props.lookup (toString i)).getD JSValue.undef))

/-- The generator of `formatMap`: `Entry(key, value, " => ")` per entry. -/
def mapItems (entries : List (JSValue × JSValue)) : List EItem :=
  entries.map (fun p => EItem.entry p.1 p.2 sArrowSep)

/-- The generator of `formatSet`: the elements, bare. -/
def setItems (elems : List JSValue) : List EItem :=
  elems.map EItem.bare

/-- The generator of `formatIterable`: the iterated values, bare. -/
def iterItems (elems : List JSValue) : List EItem :=
  elems.map EItem.bare

/-- The generator of `formatObject`: `Entry(key, obj[key], ": ")` for every
own enumerable key, the key being a string value. -/
def objItems (props : List (String × JSValue)) : List EItem :=
  props.map (fun p => EItem.entry (JSValue.str p.1) p.2 sColonSep)

/-- The numeric `length` property, when present: the array-like probe
`"length" in value && typeof value.length === "number"`. -/
def lengthProp (props : List (String × JSValue)) : Option Int :=
  match props.lookup sLenKey with
  | some (JSValue.num n) => some n
  | _ => none

/-- The loop body of `_formatObjectEntries`: format every item with a child
formatter (`key` with an unskipped child, an `Entry` value with a child that
skips first-line indentation), appending `,\n` after each, threading state
left to right.  The recursive `format` call is abstracted as `F`. -/
def fmtItems (F : Formatter → JSValue → FmtState → Except Unit (String × FmtState))
    (f : Formatter) : List EItem → FmtState → Except Unit (String × FmtState)
  | [], st => .ok (sEmp, st)
  | EItem.bare v :: rest, st =>
    match F (f.getChildFormatter false) v st with
    | .error e => .error e
    | .ok (s, st₁) =>
      match fmtItems F f rest st₁ with
      | .error e => .error e
      | .ok (srest, st₂) => .ok (s ++ sCommaNl ++ srest, st₂)
  | EItem.entry k v sep :: rest, st =>
    match F (f.getChildFormatter false) k st with
    | .error e => .error e
    | .ok (ks, st₁) =>
      match F (f.getChildFormatter true) v st₁ with
      | .error e => .error e
      | .ok (vs, st₂) =>
        match fmtItems F f rest st₂ with
        | .error e => .error e
        | .ok (srest, st₃) => .ok (wrap ks (vs ++ sCommaNl) sep ++ srest, st₃)

/-- `_formatObjectEntries(obj, wrapper, contentFormatter)`: circular check,
constructor name, depth guard, id assignment and `_seen` insertion, entry
loop, `_seen` removal, and final assembly. -/
def entriesAlg (F : Formatter → JSValue → FmtState → Except Unit (String × FmtState))
    (f : Formatter) (r : Nat) (h : HObj) (wL wR : String) (items : List EItem)
    (st : FmtState) : Except Unit (String × FmtState) :=
  if seenHas st.seen r then
    .ok (f.formatCircularRef st.seen r, st)
  else
    match getConstructorName h with
    | .error e => .error e
    | .ok ctorName =>
      if f.currentDepth ≥ f.options.depth then
        .ok (f.formatWithIndent (wrap sLB sRB ctorName) f.options.indent, st)
      else
        let pr := st.gen.generateId r
        let st₁ : FmtState := ⟨seenSet st.seen r pr.1, pr.2⟩
        match fmtItems F f items st₁ with
        | .error e => .error e
        | .ok (content, st₂) =>
          .ok (f.formatFirstLine
                (ctorName ++ (if f.options.circularId then sHash ++ toString pr.1 else sEmp)
                  ++ sSpace
                  ++ wrap wL
                      (if f.options.indentRoot then f.formatWithIndent wR f.options.indent else wR)
                      (sNl ++ content)),
               ⟨seenDelete st₂.seen r, st₂.gen⟩)

/-- `format(value)`: dispatch on the runtime category.  The fuel argument
only bounds recursion; `formatTop` supplies enough for the source's own
depth guard to fire first. -/
def formatV (hp : Heap) : Nat → Formatter → JSValue → FmtState →
    Except Unit (String × FmtState)
  | 0, _, _, _ => .error ()
  | fuel + 1, f, v, st =>
    match v with
    | .undef => .ok (f.formatUndefined, st)
    | .null => .ok (f.formatNull, st)
    | .bool b => .ok (f.formatBoolean b, st)
    | .num n => .ok (f.formatNumber n, st)
    | .bigintVal n => .ok (f.formatBigInt n, st)
    | .str s => .ok (f.formatString s, st)
    | .sym s => .ok (f.formatSymbol s, st)
    | .fn src => .ok (f.formatFunction src, st)
    | .obj r =>
      match hp.lookup r with
      | none => .error ()
      | some h =>
        match h with
        | .regexp text _ => .ok (f.formatRegExp text, st)
        | .date iso _ =>
          match f.formatDate h iso with
          | .error e => .error e
          | .ok s => .ok (s, st)
        | .mapObj es _ => entriesAlg (formatV hp fuel) f r h sLC sRC (mapItems es) st
        | .setObj es _ => entriesAlg (formatV hp fuel) f r h sLC sRC (setItems es) st
        | .plain props iterE _ =>
          match lengthProp props with
          | some n => entriesAlg (formatV hp fuel) f r h sLB sRB (arrayItems props n) st
          | none =>
            match iterE with
            | some es => entriesAlg (formatV hp fuel) f r h sLC sRC (iterItems es) st
            | none => entriesAlg (formatV hp fuel) f r h sLC sRC (objItems props) st

/-- A top-level `format(value)` call on an engine whose shared state is
`st`: a fresh engine has `st = initialState`.  Fuel `depth + 1` always
suffices, since children recurse only below the depth guard. -/
def formatTop (opts : FormatterOptions) (hp : Heap) (v : JSValue) (st : FmtState) :
    Except Unit (String × FmtState) :=
  formatV hp (opts.depth + 1) (rootFormatter opts) v st

/-- The string of a successful result. -/
def outOf : Except Unit (String × FmtState) → Option String
  | .ok (s, _) => some s
  | .error _ => none

/-- The eight object categories of the dispatch chain. -/
inductive ObjCategory where
  | nullCat
  | patternCat
  | dateCat
  | kvColl
  | uniqueColl
  | arrayLikeCat
  | iterableCat
  | recordCat
deriving DecidableEq, Repr

/-- The category `format` selects for an object-typed value, transcribing
the source's chain of checks in order. -/
def classifyObj (hp : Heap) : JSValue → Option ObjCategory
  | JSValue.null => some .nullCat
  | JSValue.obj r =>
    match hp.lookup r with
    | none => none
    | some (.regexp _ _) => some .patternCat
    | some (.date _ _) => some .dateCat
    | some (.mapObj _ _) => some .kvColl
    | some (.setObj _ _) => some .uniqueColl
    | some (.plain props iterE _) =>
      match lengthProp props with
      | some _ => some .arrayLikeCat
      | none =>
        match iterE with
        | some _ => some .iterableCat
        | none => some .recordCat
  | _ => none

/-- The wrapper and item list `format` hands to `_formatObjectEntries` for a
composite heap object (none for regexp and date, which do not recurse). -/
def compositeParts : HObj → Option (String × String × List EItem)
  | .regexp _ _ => none
  | .date _ _ => none
  | .mapObj es _ => some (sLC, sRC, mapItems es)
  | .setObj es _ => some (sLC, sRC, setItems es)
  | .plain props iterE _ =>
    match lengthProp props with
    | some n => some (sLB, sRB, arrayItems props n)
    | none =>
      match iterE with
      | some es => some (sLC, sRC, iterItems es)
      | none => some (sLC, sRC, objItems props)

/-- Whether the first list is a prefix of the second. -/
def isPreL : List Char → List Char → Bool
  | [], _ => true
  | _ :: _, [] => false
  | a :: as, b :: bs => a == b && isPreL as bs

/-- The number of positions of `l` at which `pat` occurs as a substring. -/
def countSub (pat : List Char) : List Char → Nat
  | [] => if isPreL pat [] then 1 else 0
  | c :: rest => (if isPreL pat (c :: rest) then 1 else 0) + countSub pat rest

/-- Whether `pat` occurs as a substring of `l`. -/
def hasSub (pat l : List Char) : Bool :=
  decide (0 < countSub pat l)

/-- The opening of a circular-reference marker. -/
def sCircMark : String := "[Circular"

/-- The full circular-reference marker without ids. -/
def sCircClosed : String := "[Circular]"

/-- The circular-reference marker with id 1. -/
def sCircOne : String := "[Circular#1]"

/-- The number of circular-reference markers in an output string. -/
def countMarker (s : String) : Nat :=
  countSub sCircMark.data s.data

/-- The name `Object`. -/
def objectName : String := "Object"

/-- Default options with circular-id display enabled. -/
def cidOpts : FormatterOptions := ⟨2, 20, false, false, true⟩

/-- The properties of the self-referential record `v` with `v.self = v`. -/
def selfProps : List (String × JSValue) := [(r"self", JSValue.obj 0)]

/-- The heap object of the self-referential record. -/
def selfObjH : HObj := HObj.plain selfProps none (CtorInfo.named objectName)

/-- A heap holding only the self-referential record at identity 0. -/
def selfHeap : Heap := [(0, selfObjH)]

/-- Output of formatting the self-referential record, ids disabled. -/
def selfOutOff : String := "Object \x7b\n  \"self\": [Circular],\n\x7d"

/-- Output of formatting the self-referential record, ids enabled. -/
def selfOutOn : String := "Object#1 \x7b\n  \"self\": [Circular#1],\n\x7d"

/-- A heap holding `new Map([["k", "v"]])` at identity 0. -/
def mapHeap : Heap :=
  [(0, HObj.mapObj [(JSValue.str r"k", JSValue.str r"v")] (CtorInfo.named r"Map"))]

/-- The string the claim expects for the one-entry map. -/
def mapClaimStr : String := "Map \x7b \"k\" => \"v\",\n \x7d"

/-- The string the code actually produces for the one-entry map. -/
def mapActualStr : String := "Map \x7b\n  \"k\" => \"v\",\n\x7d"

/-- A heap whose sole object has a nullish `constructor` property
(`Object.create(null)`). -/
def absentHeap : Heap := [(0, HObj.plain [] none CtorInfo.absent)]

/-- A heap whose sole object has a constructor with a nullish `name`. -/
def nullishHeap : Heap := [(0, HObj.plain [] none CtorInfo.nullishName)]

/-- Output of formatting an empty plain object. -/
def emptyObjOut : String := "Object \x7b\n\x7d"

/-- Properties of the array-like example: an own `foo` property and a
numeric `length` of 0. -/
def fooProps : List (String × JSValue) := [(r"foo", JSValue.num 1), (r"length", JSValue.num 0)]

/-- Heap holding the array-like record with `foo: 1, length: 0`. -/
def fooHeap : Heap := [(0, HObj.plain fooProps none (CtorInfo.named objectName))]

/-- Output of the `foo`/`length: 0` array-like: an empty sequence. -/
def fooOut : String := "Object [\n]"

/-- The omitted key of the array-like example. -/
def fooKey : String := "foo"

/-- Properties of a second array-like example: index 0, length 1, and an
extra enumerable property `x`. -/
def hiProps : List (String × JSValue) :=
  [(r"0", JSValue.str r"Hi"), (r"length", JSValue.num 1), (r"x", JSValue.num 7)]

/-- Heap holding the second array-like example. -/
def hiHeap : Heap := [(0, HObj.plain hiProps none (CtorInfo.named objectName))]

/-- Output of the second array-like example: only the indexed element. -/
def hiOut : String := "Object [\n  \"Hi\",\n]"

/-- The omitted extra key of the second array-like example. -/
def xKey : String := "x"

/-- A heap with two distinct empty records, the first holding the second
twice (`\x7ba: v, b: v\x7d` with a shared non-cyclic `v`). -/
def sharedHeap : Heap :=
  [(0, HObj.plain [(r"a", JSValue.obj 1), (r"b", JSValue.obj 1)] none (CtorInfo.named objectName)),
   (1, HObj.plain [] none (CtorInfo.named objectName))]

/-- Output of the shared-value example with circular ids enabled. -/
def sharedOut : String :=
  "Object#1 \x7b\n  \"a\": Object#2 \x7b\n  \x7d,\n  \"b\": Object#2 \x7b\n  \x7d,\n\x7d"

/-- The id tag of the shared value. -/
def sHash2 : String := "#2"

/-- Options with max depth 1, so the root itself is depth-capped. -/
def depthOneOpts : FormatterOptions := ⟨2, 1, false, false, false⟩

/-- A heap with two unrelated empty records, for the engine-reuse
counterexample. -/
def twoObjHeap : Heap :=
  [(0, HObj.plain [] none (CtorInfo.named objectName)),
   (1, HObj.plain [] none (CtorInfo.named objectName))]

/-- Whether a value is the null literal. -/
def isNullV : JSValue → Bool
  | JSValue.null => true
  | _ => false

/-- The heap object a value refers to, if any. -/
def heapObjOf (hp : Heap) : JSValue → Option HObj
  | JSValue.obj r => hp.lookup r
  | _ => none

/-- Spec category predicate: pattern/regular-expression. -/
def isPatternV (hp : Heap) (v : JSValue) : Bool :=
  match heapObjOf hp v with
  | some (.regexp _ _) => true
  | _ => false

/-- Spec category predicate: date/timestamp. -/
def isDateV (hp : Heap) (v : JSValue) : Bool :=
  match heapObjOf hp v with
  | some (.date _ _) => true
  | _ => false

/-- Spec category predicate: key-value collection. -/
def isKVCollV (hp : Heap) (v : JSValue) : Bool :=
  match heapObjOf hp v with
  | some (.mapObj _ _) => true
  | _ => false

/-- Spec category predicate: unique-element collection. -/
def isUniqueCollV (hp : Heap) (v : JSValue) : Bool :=
  match heapObjOf hp v with
  | some (.setObj _ _) => true
  | _ => false

/-- Spec category predicate: has a numeric `length` property. -/
def hasNumericLength (hp : Heap) (v : JSValue) : Bool :=
  match heapObjOf hp v with
  | some (.plain props _ _) => (lengthProp props).isSome
  | _ => false

/-- Spec category predicate: generically iterable.  Key-value and
unique-element collections are iterable too, which is exactly the overlap
the priority order resolves. -/
def isIterableV (hp : Heap) (v : JSValue) : Bool :=
  match heapObjOf hp v with
  | some (.mapObj _ _) => true
  | some (.setObj _ _) => true
  | some (.plain _ (some _) _) => true
  | _ => false

/-- Whether the spec's description of a category holds of a value; the
generic keyed record is the catch-all. -/
def specPredHolds (hp : Heap) (v : JSValue) : ObjCategory → Bool
  | .nullCat => isNullV v
  | .patternCat => isPatternV hp v
  | .dateCat => isDateV hp v
  | .kvColl => isKVCollV hp v
  | .uniqueColl => isUniqueCollV hp v
  | .arrayLikeCat => hasNumericLength hp v
  | .iterableCat => isIterableV hp v
  | .recordCat => true

/-- The spec's fixed priority order of object categories. -/
def specOrder : List ObjCategory :=
  [.nullCat, .patternCat, .dateCat, .kvColl, .uniqueColl, .arrayLikeCat, .iterableCat, .recordCat]

/-- The earliest category of the priority order whose description holds. -/
def firstMatchCat (hp : Heap) (v : JSValue) : Option ObjCategory :=
  specOrder.find? (fun c => specPredHolds hp v c)

/-- A heap holding a one-element Set, which is also iterable. -/
def setHeap : Heap := [(0, HObj.setObj [JSValue.num 1] (CtorInfo.named r"Set"))]

/-- Two association lists bound to the same keys in the same order. -/
def keysEq (a b : List (Nat × Nat)) : Prop :=
  a.map Prod.fst = b.map Prod.fst

/-- Results of two formatter runs agree observably: both throw, or both
succeed with the same string and visited sets over the same keys. -/
def ResMatch : Except Unit (String × FmtState) → Except Unit (String × FmtState) → Prop
  | .error _, .error _ => True
  | .ok p₁, .ok p₂ => p₁.1 = p₂.1 ∧ keysEq p₁.2.seen p₂.2.seen
  | _, _ => False

/-- Modelled from the spec: the acyclic rendering of §4.1 with the cycle
machinery removed — no VisitedSet membership test, insertion or removal;
only the id generator is threaded.  Used to state that on acyclic input the
circular-reference branch of the real formatter is never exercised.
This is the loop over entries. -/
def fmtItemsNC (G : Formatter → JSValue → CircularIdGenerator →
      Except Unit (String × CircularIdGenerator))
    (f : Formatter) : List EItem → CircularIdGenerator →
      Except Unit (String × CircularIdGenerator)
  | [], g => .ok (sEmp, g)
  | EItem.bare v :: rest, g =>
    match G (f.getChildFormatter false) v g with
    | .error e => .error e
    | .ok (s, g₁) =>
      match fmtItemsNC G f rest g₁ with
      | .error e => .error e
      | .ok (srest, g₂) => .ok (s ++ sCommaNl ++ srest, g₂)
  | EItem.entry k v sep :: rest, g =>
    match G (f.getChildFormatter false) k g with
    | .error e => .error e
    | .ok (ks, g₁) =>
      match G (f.getChildFormatter true) v g₁ with
      | .error e => .error e
      | .ok (vs, g₂) =>
        match fmtItemsNC G f rest g₂ with
        | .error e => .error e
        | .ok (srest, g₃) => .ok (wrap ks (vs ++ sCommaNl) sep ++ srest, g₃)

/-- Modelled from the spec: `_formatObjectEntries` without the VisitedSet
(see `fmtItemsNC`). -/
def entriesAlgNC (G : Formatter → JSValue → CircularIdGenerator →
      Except Unit (String × CircularIdGenerator))
    (f : Formatter) (r : Nat) (h : HObj) (wL wR : String) (items : List EItem)
    (g : CircularIdGenerator) : Except Unit (String × CircularIdGenerator) :=
  match getConstructorName h with
  | .error e => .error e
  | .ok ctorName =>
    if f.currentDepth ≥ f.options.depth then
      .ok (f.formatWithIndent (wrap sLB sRB ctorName) f.options.indent, g)
    else
      let pr := g.generateId r
      match fmtItemsNC G f items pr.2 with
      | .error e => .error e
      | .ok (content, g₂) =>
        .ok (f.formatFirstLine
              (ctorName ++ (if f.options.circularId then sHash ++ toString pr.1 else sEmp)
                ++ sSpace
                ++ wrap wL
                    (if f.options.indentRoot then f.formatWithIndent wR f.options.indent else wR)
                    (sNl ++ content)),
             g₂)

/-- Modelled from the spec: `format` without the VisitedSet (see
`fmtItemsNC`). -/
def formatVNC (hp : Heap) : Nat → Formatter → JSValue → CircularIdGenerator →
    Except Unit (String × CircularIdGenerator)
  | 0, _, _, _ => .error ()
  | fuel + 1, f, v, g =>
    match v with
    | .undef => .ok (f.formatUndefined, g)
    | .null => .ok (f.formatNull, g)
    | .bool b => .ok (f.formatBoolean b, g)
    | .num n => .ok (f.formatNumber n, g)
    | .bigintVal n => .ok (f.formatBigInt n, g)
    | .str s => .ok (f.formatString s, g)
    | .sym s => .ok (f.formatSymbol s, g)
    | .fn src => .ok (f.formatFunction src, g)
    | .obj r =>
      match hp.lookup r with
      | none => .error ()
      | some h =>
        match h with
        | .regexp text _ => .ok (f.formatRegExp text, g)
        | .date iso _ =>
          match f.formatDate h iso with
          | .error e => .error e
          | .ok s => .ok (s, g)
        | .mapObj es _ => entriesAlgNC (formatVNC hp fuel) f r h sLC sRC (mapItems es) g
        | .setObj es _ => entriesAlgNC (formatVNC hp fuel) f r h sLC sRC (setItems es) g
        | .plain props iterE _ =>
          match lengthProp props with
          | some n => entriesAlgNC (formatVNC hp fuel) f r h sLB sRB (arrayItems props n) g
          | none =>
            match iterE with
            | some es => entriesAlgNC (formatVNC hp fuel) f r h sLC sRC (iterItems es) g
            | none => entriesAlgNC (formatVNC hp fuel) f r h sLC sRC (objItems props) g

/-- A formatter result and a cycle-free result agree relative to the seen
set `se`: both throw, or both succeed with the same string, the formatter's
final state restoring `se` and both generators agreeing. -/
def REq (se : List (Nat × Nat)) : Except Unit (String × FmtState) →
    Except Unit (String × CircularIdGenerator) → Prop
  | .error _, .error _ => True
  | .ok p₁, .ok p₂ => p₁.1 = p₂.1 ∧ p₁.2 = ⟨se, p₂.2⟩
  | _, _ => False

/-- All nested child values of a heap object: map keys and values, set
elements, property values and iterated elements. -/
def childVals : HObj → List JSValue
  | .regexp _ _ => []
  | .date _ _ => []
  | .mapObj es _ => es.foldr (fun p acc => p.1 :: p.2 :: acc) []
  | .setObj es _ => es
  | .plain props iterE _ =>
    props.map Prod.snd ++ (match iterE with | some es => es | none => [])

/-- The object references among a heap object's children. -/
def refsOf (h : HObj) : List Nat :=
  (childVals h).filterMap (fun v =>
    match v with
    | JSValue.obj r => some r
    | _ => none)

/-- A rank function witnessing acyclicity: every edge of the heap strictly
decreases the rank. -/
def RankOk (hp : Heap) (rank : Nat → Nat) : Prop :=
  ∀ p ∈ hp, ∀ b ∈ refsOf p.2, rank b < rank p.1

/-- Reachability of an object identity from a value through the heap. -/
inductive Reach (hp : Heap) : JSValue → Nat → Prop where
  | here (r : Nat) : Reach hp (JSValue.obj r) r
  | step (r : Nat) (h : HObj) (c : JSValue) (x : Nat) :
      hp.lookup r = some h → c ∈ childVals h → Reach hp c x →
      Reach hp (JSValue.obj r) x

/-- No identity reachable from `v` is currently in the seen set. -/
def SeenInv (hp : Heap) (se : List (Nat × Nat)) (v : JSValue) : Prop :=
  ∀ x, Reach hp v x → se.lookup x = none

/-- The values occurring in a list of entry items. -/
def itemVals : List EItem → List JSValue
  | [] => []
  | EItem.bare v :: rest => v :: itemVals rest
  | EItem.entry k v _ :: rest => k :: v :: itemVals rest

/-- A rank function for `sharedHeap`. -/
def sharedRank : Nat → Nat
  | 0 => 1
  | _ => 0

/-- A top-level call of the cycle-free renderer (see `formatVNC`). -/
def formatTopNC (opts : FormatterOptions) (hp : Heap) (v : JSValue)
    (g : CircularIdGenerator) : Except Unit (String × CircularIdGenerator) :=
  formatVNC hp (opts.depth + 1) (rootFormatter opts) v g

/-- The engine state left behind after formatting the first record of
`twoObjHeap` on an engine with circular ids enabled. -/
def afterFirstCall : FmtState :=
  match formatTop cidOpts twoObjHeap (JSValue.obj 0) initialState with
  | .ok p => p.2
  | .error _ => initialState

/-- Output of the shared-value example under default options. -/
def sharedOutDefault : String :=
  "Object \x7b\n  \"a\": Object \x7b\n  \x7d,\n  \"b\": Object \x7b\n  \x7d,\n\x7d"

theorem lookup_filter_ne {se : List (Nat × Nat)} {r : Nat} (h : se.lookup r = none) :
    se.filter (fun p => p.1 != r) = se := by
  induction se with
  | nil => rfl
  | cons a t ih =>
    simp only [List.lookup] at h
    cases hbeq : r == a.1 with
    | true => rw [hbeq] at h; simp at h
    | false =>
      rw [hbeq] at h
      simp only [List.filter]
      have : (a.1 != r) = true := by
        simp only [bne_iff_ne]
        intro he
        rw [he] at hbeq
        simp at hbeq
      rw [this, ih h]

theorem seenSet_of_not_has {se : List (Nat × Nat)} {r i : Nat} (h : se.lookup r = none) :
    seenSet se r i = (r, i) :: se := by
  unfold seenSet seenHas
  rw [h]
  rfl

theorem seenDelete_restore {se : List (Nat × Nat)} {r i : Nat} (h : se.lookup r = none) :
    seenDelete ((r, i) :: se) r = se := by
  unfold seenDelete
  simp only [List.filter, bne_self_eq_false]
  exact lookup_filter_ne h

theorem fmtItems_restore
    (F : Formatter → JSValue → FmtState → Except Unit (String × FmtState))
    (hF : ∀ f v st s st', F f v st = .ok (s, st') → st'.seen = st.seen) :
    ∀ (items : List EItem) (f : Formatter) (st : FmtState) (s : String) (st' : FmtState),
      fmtItems F f items st = .ok (s, st') → st'.seen = st.seen := by
  intro items
  induction items with
  | nil =>
    intro f st s st' h
    simp only [fmtItems, Except.ok.injEq, Prod.mk.injEq] at h
    rw [← h.2]
  | cons it rest ih =>
    intro f st s st' h
    cases it with
    | bare v =>
      simp only [fmtItems] at h
      split at h
      · exact absurd h (by simp)
      · rename_i s₀ st₁ hF1
        split at h
        · exact absurd h (by simp)
        · rename_i srest st₂ hF2
          simp only [Except.ok.injEq, Prod.mk.injEq] at h
          rw [← h.2]
          rw [ih f st₁ srest st₂ hF2]
          exact hF _ v st s₀ st₁ hF1
    | entry k v sep =>
      simp only [fmtItems] at h
      split at h
      · exact absurd h (by simp)
      · rename_i ks st₁ hF1
        split at h
        · exact absurd h (by simp)
        · rename_i vs st₂ hF2
          split at h
          · exact absurd h (by simp)
          · rename_i srest st₃ hF3
            simp only [Except.ok.injEq, Prod.mk.injEq] at h
            rw [← h.2]
            rw [ih f st₂ srest st₃ hF3]
            rw [hF _ v st₁ vs st₂ hF2]
            exact hF _ k st ks st₁ hF1

theorem entriesAlg_restore
    (F : Formatter → JSValue → FmtState → Except Unit (String × FmtState))
    (hF : ∀ f v st s st', F f v st = .ok (s, st') → st'.seen = st.seen)
    (f : Formatter) (r : Nat) (ho : HObj) (wL wR : String) (items : List EItem)
    (st : FmtState) (s : String) (st' : FmtState)
    (h : entriesAlg F f r ho wL wR items st = .ok (s, st')) : st'.seen = st.seen := by
  simp only [entriesAlg] at h
  split at h
  · simp only [Except.ok.injEq, Prod.mk.injEq] at h
    rw [← h.2]
  · rename_i hhas
    split at h
    · exact absurd h (by simp)
    · rename_i name hctor
      split at h
      · simp only [Except.ok.injEq, Prod.mk.injEq] at h
        rw [← h.2]
      · split at h
        · exact absurd h (by simp)
        · rename_i content st₂ hitems
          simp only [Except.ok.injEq, Prod.mk.injEq] at h
          rw [← h.2]
          have hlk : st.seen.lookup r = none := by
            revert hhas
            unfold seenHas
            cases st.seen.lookup r with
            | none => intro _; rfl
            | some i => intro hx; simp at hx
          have h2 := fmtItems_restore F hF items f _ content st₂ hitems
          simp only [h2]
          rw [seenSet_of_not_has hlk]
          exact seenDelete_restore hlk

theorem formatV_restore (hp : Heap) :
    ∀ (fuel : Nat) (f : Formatter) (v : JSValue) (st : FmtState) (s : String) (st' : FmtState),
      formatV hp fuel f v st = .ok (s, st') → st'.seen = st.seen := by
  intro fuel
  induction fuel with
  | zero =>
    intro f v st s st' h
    exact absurd h (by simp [formatV])
  | succ fuel ih =>
    intro f v st s st' h
    cases v with
    | undef => simp only [formatV, Except.ok.injEq, Prod.mk.injEq] at h; rw [← h.2]
    | null => simp only [formatV, Except.ok.injEq, Prod.mk.injEq] at h; rw [← h.2]
    | bool b => simp only [formatV, Except.ok.injEq, Prod.mk.injEq] at h; rw [← h.2]
    | num n => simp only [formatV, Except.ok.injEq, Prod.mk.injEq] at h; rw [← h.2]
    | bigintVal n => simp only [formatV, Except.ok.injEq, Prod.mk.injEq] at h; rw [← h.2]
    | str s₀ => simp only [formatV, Except.ok.injEq, Prod.mk.injEq] at h; rw [← h.2]
    | sym s₀ => simp only [formatV, Except.ok.injEq, Prod.mk.injEq] at h; rw [← h.2]
    | fn src => simp only [formatV, Except.ok.injEq, Prod.mk.injEq] at h; rw [← h.2]
    | obj r =>
      simp only [formatV] at h
      split at h
      · exact absurd h (by simp)
      · rename_i ho hlk
        split at h
        · simp only [Except.ok.injEq, Prod.mk.injEq] at h
          rw [← h.2]
        · split at h
          · exact absurd h (by simp)
          · simp only [Except.ok.injEq, Prod.mk.injEq] at h
            rw [← h.2]
        · exact entriesAlg_restore _ ih f r _ _ _ _ st s st' h
        · exact entriesAlg_restore _ ih f r _ _ _ _ st s st' h
        · split at h
          · exact entriesAlg_restore _ ih f r _ _ _ _ st s st' h
          · split at h
            · exact entriesAlg_restore _ ih f r _ _ _ _ st s st' h
            · exact entriesAlg_restore _ ih f r _ _ _ _ st s st' h

theorem lookup_congr_keys : ∀ (a b : List (Nat × Nat)), keysEq a b → ∀ r,
    (a.lookup r).isSome = (b.lookup r).isSome := by
  intro a
  induction a with
  | nil =>
    intro b hk r
    unfold keysEq at hk
    have : b = [] := by
      cases b with
      | nil => rfl
      | cons p t => simp at hk
    rw [this]
  | cons p t ih =>
    intro b hk r
    unfold keysEq at hk
    cases b with
    | nil => simp at hk
    | cons q u =>
      simp only [List.map, List.cons.injEq] at hk
      simp only [List.lookup, ← hk.1]
      cases hbeq : r == p.1 with
      | true => rfl
      | false => exact ih u hk.2 r

theorem seenHas_congr {a b : List (Nat × Nat)} (hk : keysEq a b) (r : Nat) :
    seenHas a r = seenHas b r :=
  lookup_congr_keys a b hk r

theorem keysEq_cons {a b : List (Nat × Nat)} (hk : keysEq a b) (r i j : Nat) :
    keysEq ((r, i) :: a) ((r, j) :: b) := by
  unfold keysEq at hk ⊢
  simp only [List.map, hk]

theorem map_fst_filter_ne (r : Nat) : ∀ (a : List (Nat × Nat)),
    (a.filter (fun p => p.1 != r)).map Prod.fst = (a.map Prod.fst).filter (fun x => x != r) := by
  intro a
  induction a with
  | nil => rfl
  | cons p t ih =>
    simp only [List.filter, List.map]
    cases hb : p.1 != r with
    | true => simp only [List.map, ih]
    | false => exact ih

theorem keysEq_delete {a b : List (Nat × Nat)} (hk : keysEq a b) (r : Nat) :
    keysEq (seenDelete a r) (seenDelete b r) := by
  unfold keysEq seenDelete
  rw [map_fst_filter_ne, map_fst_filter_ne]
  unfold keysEq at hk
  rw [hk]

theorem lookup_none_of_not_has {se : List (Nat × Nat)} {r : Nat} (h : seenHas se r = false) :
    se.lookup r = none := by
  unfold seenHas at h
  cases hl : se.lookup r with
  | none => rfl
  | some i => rw [hl] at h; simp at h

theorem formatCircularRef_cid_false {f : Formatter} (hcid : f.options.circularId = false)
    (se₁ se₂ : List (Nat × Nat)) (r : Nat) :
    f.formatCircularRef se₁ r = f.formatCircularRef se₂ r := by
  unfold Formatter.formatCircularRef
  rw [hcid]
  rfl

theorem fmtItems_genIrrel
    (F : Formatter → JSValue → FmtState → Except Unit (String × FmtState))
    (hF : ∀ f v st₁ st₂, f.options.circularId = false → keysEq st₁.seen st₂.seen →
        ResMatch (F f v st₁) (F f v st₂)) :
    ∀ (items : List EItem) (f : Formatter) (st₁ st₂ : FmtState),
      f.options.circularId = false → keysEq st₁.seen st₂.seen →
      ResMatch (fmtItems F f items st₁) (fmtItems F f items st₂) := by
  intro items
  induction items with
  | nil =>
    intro f st₁ st₂ hcid hk
    exact ⟨rfl, hk⟩
  | cons it rest ih =>
    intro f st₁ st₂ hcid hk
    cases it with
    | bare v =>
      have hchild := hF (f.getChildFormatter false) v st₁ st₂ hcid hk
      cases hA : F (f.getChildFormatter false) v st₁ with
      | error e₁ =>
        cases hB : F (f.getChildFormatter false) v st₂ with
        | error e₂ => simp only [fmtItems, hA, hB]; trivial
        | ok p₂ => rw [hA, hB] at hchild; simp [ResMatch] at hchild
      | ok p₁ =>
        obtain ⟨s₁, t₁⟩ := p₁
        cases hB : F (f.getChildFormatter false) v st₂ with
        | error e₂ => rw [hA, hB] at hchild; simp [ResMatch] at hchild
        | ok p₂ =>
          obtain ⟨s₂, t₂⟩ := p₂
          rw [hA, hB] at hchild
          simp only [ResMatch] at hchild
          have hrest := ih f t₁ t₂ hcid hchild.2
          cases hC : fmtItems F f rest t₁ with
          | error e₁ =>
            cases hD : fmtItems F f rest t₂ with
            | error e₂ => simp only [fmtItems, hA, hB, hC, hD]; trivial
            | ok q₂ => rw [hC, hD] at hrest; simp [ResMatch] at hrest
          | ok q₁ =>
            obtain ⟨u₁, w₁⟩ := q₁
            cases hD : fmtItems F f rest t₂ with
            | error e₂ => rw [hC, hD] at hrest; simp [ResMatch] at hrest
            | ok q₂ =>
              obtain ⟨u₂, w₂⟩ := q₂
              rw [hC, hD] at hrest
              simp only [ResMatch] at hrest
              simp only [fmtItems, hA, hB, hC, hD]
              refine ⟨?_, hrest.2⟩
              simp only [hchild.1, hrest.1]
    | entry k v sep =>
      have hchild := hF (f.getChildFormatter false) k st₁ st₂ hcid hk
      cases hA : F (f.getChildFormatter false) k st₁ with
      | error e₁ =>
        cases hB : F (f.getChildFormatter false) k st₂ with
        | error e₂ => simp only [fmtItems, hA, hB]; trivial
        | ok p₂ => rw [hA, hB] at hchild; simp [ResMatch] at hchild
      | ok p₁ =>
        obtain ⟨s₁, t₁⟩ := p₁
        cases hB : F (f.getChildFormatter false) k st₂ with
        | error e₂ => rw [hA, hB] at hchild; simp [ResMatch] at hchild
        | ok p₂ =>
          obtain ⟨s₂, t₂⟩ := p₂
          rw [hA, hB] at hchild
          simp only [ResMatch] at hchild
          have hval := hF (f.getChildFormatter true) v t₁ t₂ hcid hchild.2
          cases hC : F (f.getChildFormatter true) v t₁ with
          | error e₁ =>
            cases hD : F (f.getChildFormatter true) v t₂ with
            | error e₂ => simp only [fmtItems, hA, hB, hC, hD]; trivial
            | ok q₂ => rw [hC, hD] at hval; simp [ResMatch] at hval
          | ok q₁ =>
            obtain ⟨u₁, w₁⟩ := q₁
            cases hD : F (f.getChildFormatter true) v t₂ with
            | error e₂ => rw [hC, hD] at hval; simp [ResMatch] at hval
            | ok q₂ =>
              obtain ⟨u₂, w₂⟩ := q₂
              rw [hC, hD] at hval
              simp only [ResMatch] at hval
              have hrest := ih f w₁ w₂ hcid hval.2
              cases hE : fmtItems F f rest w₁ with
              | error e₁ =>
                cases hG : fmtItems F f rest w₂ with
                | error e₂ => simp only [fmtItems, hA, hB, hC, hD, hE, hG]; trivial
                | ok z₂ => rw [hE, hG] at hrest; simp [ResMatch] at hrest
              | ok z₁ =>
                obtain ⟨a₁, b₁⟩ := z₁
                cases hG : fmtItems F f rest w₂ with
                | error e₂ => rw [hE, hG] at hrest; simp [ResMatch] at hrest
                | ok z₂ =>
                  obtain ⟨a₂, b₂⟩ := z₂
                  rw [hE, hG] at hrest
                  simp only [ResMatch] at hrest
                  simp only [fmtItems, hA, hB, hC, hD, hE, hG]
                  refine ⟨?_, hrest.2⟩
                  simp only [hchild.1, hval.1, hrest.1]

theorem entriesAlg_genIrrel
    (F : Formatter → JSValue → FmtState → Except Unit (String × FmtState))
    (hF : ∀ f v st₁ st₂, f.options.circularId = false → keysEq st₁.seen st₂.seen →
        ResMatch (F f v st₁) (F f v st₂))
    (f : Formatter) (r : Nat) (ho : HObj) (wL wR : String) (items : List EItem)
    (st₁ st₂ : FmtState)
    (hcid : f.options.circularId = false) (hk : keysEq st₁.seen st₂.seen) :
    ResMatch (entriesAlg F f r ho wL wR items st₁) (entriesAlg F f r ho wL wR items st₂) := by
  have hhaseq := seenHas_congr hk r
  cases hhas : seenHas st₁.seen r with
  | true =>
    have hhas₂ : seenHas st₂.seen r = true := by rw [← hhaseq]; exact hhas
    simp only [entriesAlg, hhas, hhas₂, if_true]
    exact ⟨formatCircularRef_cid_false hcid _ _ r, hk⟩
  | false =>
    have hhas₂ : seenHas st₂.seen r = false := by rw [← hhaseq]; exact hhas
    cases hctor : getConstructorName ho with
    | error e =>
      simp only [entriesAlg, hhas, hhas₂, hctor, Bool.false_eq_true, if_false]
      trivial
    | ok name =>
      by_cases hdep : f.currentDepth ≥ f.options.depth
      · simp only [entriesAlg, hhas, hhas₂, hctor, Bool.false_eq_true, if_false, if_pos hdep]
        exact ⟨rfl, hk⟩
      · have hlk₁ : st₁.seen.lookup r = none := lookup_none_of_not_has hhas
        have hlk₂ : st₂.seen.lookup r = none := lookup_none_of_not_has hhas₂
        have hk' : keysEq (seenSet st₁.seen r (st₁.gen.generateId r).1)
            (seenSet st₂.seen r (st₂.gen.generateId r).1) := by
          rw [seenSet_of_not_has hlk₁, seenSet_of_not_has hlk₂]
          exact keysEq_cons hk r _ _
        have hitems := fmtItems_genIrrel F hF items f
          ⟨seenSet st₁.seen r (st₁.gen.generateId r).1, (st₁.gen.generateId r).2⟩
          ⟨seenSet st₂.seen r (st₂.gen.generateId r).1, (st₂.gen.generateId r).2⟩
          hcid hk'
        cases hI : fmtItems F f items
            ⟨seenSet st₁.seen r (st₁.gen.generateId r).1, (st₁.gen.generateId r).2⟩ with
        | error e₁ =>
          cases hJ : fmtItems F f items
              ⟨seenSet st₂.seen r (st₂.gen.generateId r).1, (st₂.gen.generateId r).2⟩ with
          | error e₂ =>
            simp only [entriesAlg, hhas, hhas₂, hctor, Bool.false_eq_true, if_false,
              if_neg hdep, hI, hJ]
            trivial
          | ok q₂ => rw [hI, hJ] at hitems; simp [ResMatch] at hitems
        | ok q₁ =>
          obtain ⟨c₁, u₁⟩ := q₁
          cases hJ : fmtItems F f items
              ⟨seenSet st₂.seen r (st₂.gen.generateId r).1, (st₂.gen.generateId r).2⟩ with
          | error e₂ => rw [hI, hJ] at hitems; simp [ResMatch] at hitems
          | ok q₂ =>
            obtain ⟨c₂, u₂⟩ := q₂
            rw [hI, hJ] at hitems
            simp only [ResMatch] at hitems
            simp only [entriesAlg, hhas, hhas₂, hctor, Bool.false_eq_true, if_false,
              if_neg hdep, hI, hJ]
            refine ⟨?_, keysEq_delete hitems.2 r⟩
            rw [hcid]
            simp only [Bool.false_eq_true, if_false, hitems.1]

theorem formatV_genIrrel (hp : Heap) :
    ∀ (fuel : Nat) (f : Formatter) (v : JSValue) (st₁ st₂ : FmtState),
      f.options.circularId = false → keysEq st₁.seen st₂.seen →
      ResMatch (formatV hp fuel f v st₁) (formatV hp fuel f v st₂) := by
  intro fuel
  induction fuel with
  | zero =>
    intro f v st₁ st₂ hcid hk
    trivial
  | succ fuel ih =>
    intro f v st₁ st₂ hcid hk
    cases v with
    | undef => exact ⟨rfl, hk⟩
    | null => exact ⟨rfl, hk⟩
    | bool b => exact ⟨rfl, hk⟩
    | num n => exact ⟨rfl, hk⟩
    | bigintVal n => exact ⟨rfl, hk⟩
    | str s₀ => exact ⟨rfl, hk⟩
    | sym s₀ => exact ⟨rfl, hk⟩
    | fn src => exact ⟨rfl, hk⟩
    | obj r =>
      cases hl : hp.lookup r with
      | none => simp only [formatV, hl]; trivial
      | some ho =>
        cases ho with
        | regexp text c =>
          simp only [formatV, hl]
          exact ⟨rfl, hk⟩
        | date iso c =>
          simp only [formatV, hl]
          cases hd : (f.formatDate (HObj.date iso c) iso) with
          | error e => trivial
          | ok s => exact ⟨rfl, hk⟩
        | mapObj es c =>
          simp only [formatV, hl]
          exact entriesAlg_genIrrel _ ih f r _ _ _ _ st₁ st₂ hcid hk
        | setObj es c =>
          simp only [formatV, hl]
          exact entriesAlg_genIrrel _ ih f r _ _ _ _ st₁ st₂ hcid hk
        | plain props iterE c =>
          simp only [formatV, hl]
          cases hlp : lengthProp props with
          | some n =>
            simp only [hlp]
            exact entriesAlg_genIrrel _ ih f r _ _ _ _ st₁ st₂ hcid hk
          | none =>
            simp only [hlp]
            cases iterE with
            | some es => exact entriesAlg_genIrrel _ ih f r _ _ _ _ st₁ st₂ hcid hk
            | none => exact entriesAlg_genIrrel _ ih f r _ _ _ _ st₁ st₂ hcid hk

theorem reach_is_obj {hp : Heap} {c : JSValue} {x : Nat} (h : Reach hp c x) :
    ∃ b, c = JSValue.obj b := by
  cases h with
  | here r => exact ⟨_, rfl⟩
  | step r h₀ c₀ x₀ => exact ⟨_, rfl⟩

theorem lookup_mem_nat {β : Type} : ∀ (l : List (Nat × β)) (a : Nat) (b : β),
    l.lookup a = some b → (a, b) ∈ l := by
  intro l
  induction l with
  | nil => intro a b h; simp [List.lookup] at h
  | cons p t ih =>
    intro a b h
    simp only [List.lookup] at h
    cases hbeq : a == p.1 with
    | true =>
      rw [hbeq] at h
      simp only [Option.some.injEq] at h
      have ha : a = p.1 := beq_iff_eq.mp hbeq
      have : (a, b) = p := by
        rw [ha, ← h]
      rw [this]
      exact List.mem_cons_self p t
    | false =>
      rw [hbeq] at h
      exact List.mem_cons_of_mem _ (ih a b h)

theorem lookup_mem_snd {α β : Type} [BEq α] : ∀ (l : List (α × β)) (a : α) (b : β),
    l.lookup a = some b → b ∈ l.map Prod.snd := by
  intro l
  induction l with
  | nil => intro a b h; simp [List.lookup] at h
  | cons p t ih =>
    intro a b h
    simp only [List.lookup] at h
    cases hbeq : a == p.1 with
    | true =>
      rw [hbeq] at h
      simp only [Option.some.injEq] at h
      simp only [List.map]
      rw [← h]
      exact List.mem_cons_self p.2 _
    | false =>
      rw [hbeq] at h
      exact List.mem_cons_of_mem _ (ih a b h)

theorem mem_refsOf {h : HObj} {c : JSValue} {b : Nat}
    (hc : c ∈ childVals h) (hb : c = JSValue.obj b) : b ∈ refsOf h := by
  unfold refsOf
  rw [List.mem_filterMap]
  exact ⟨c, hc, by rw [hb]⟩

theorem reach_rank_le {hp : Heap} {rank : Nat → Nat} (hrk : RankOk hp rank) :
    ∀ (v : JSValue) (x : Nat), Reach hp v x → ∀ a, v = JSValue.obj a → rank x ≤ rank a := by
  intro v x hre
  induction hre with
  | here r =>
    intro a ha
    injection ha with ha'
    rw [ha']
  | step r h c x hl hc hrc ih =>
    intro a ha
    injection ha with ha'
    obtain ⟨b, hb⟩ := reach_is_obj hrc
    have h1 : rank x ≤ rank b := ih b hb
    have h2 : b ∈ refsOf h := mem_refsOf hc hb
    have h3 : (r, h) ∈ hp := lookup_mem_nat hp r h hl
    have h4 : rank b < rank r := hrk (r, h) h3 b h2
    rw [← ha']
    omega

theorem seenInv_child {hp : Heap} {rank : Nat → Nat} (hrk : RankOk hp rank) {r : Nat}
    {h : HObj} (hl : hp.lookup r = some h) {se : List (Nat × Nat)}
    (hinv : SeenInv hp se (JSValue.obj r)) {c : JSValue} (hc : c ∈ childVals h) (i : Nat) :
    SeenInv hp ((r, i) :: se) c := by
  intro x hre
  have hxr : x ≠ r := by
    intro he
    obtain ⟨b, hb⟩ := reach_is_obj hre
    have h1 : rank x ≤ rank b := reach_rank_le hrk c x hre b hb
    have h2 : b ∈ refsOf h := mem_refsOf hc hb
    have h4 : rank b < rank r := hrk (r, h) (lookup_mem_nat hp r h hl) b h2
    rw [he] at h1
    omega
  have hse : se.lookup x = none := hinv x (Reach.step r h c x hl hc hre)
  simp only [List.lookup]
  cases hbeq : x == r with
  | true => exact absurd (beq_iff_eq.mp hbeq) hxr
  | false => exact hse

theorem seenInv_nonobj {hp : Heap} {se : List (Nat × Nat)} {c : JSValue}
    (h : ∀ b, c ≠ JSValue.obj b) : SeenInv hp se c := by
  intro x hre
  obtain ⟨b, hb⟩ := reach_is_obj hre
  exact absurd hb (h b)

theorem itemVals_map_bare : ∀ (l : List JSValue), itemVals (l.map EItem.bare) = l := by
  intro l
  induction l with
  | nil => rfl
  | cons v t ih => simp only [List.map, itemVals, ih]

theorem itemVals_sub_map (es : List (JSValue × JSValue)) (ct : CtorInfo) :
    ∀ v ∈ itemVals (mapItems es), v ∈ childVals (HObj.mapObj es ct) := by
  induction es with
  | nil => intro v hv; simp [mapItems, itemVals] at hv
  | cons p t ih =>
    intro v hv
    simp only [mapItems, List.map, itemVals, List.mem_cons] at hv
    simp only [childVals, List.foldr, List.mem_cons]
    rcases hv with h | h | h
    · exact Or.inl h
    · exact Or.inr (Or.inl h)
    · have := ih v (by simpa [mapItems] using h)
      simp only [childVals] at this
      exact Or.inr (Or.inr this)

theorem itemVals_sub_obj (props : List (String × JSValue)) :
    ∀ v ∈ itemVals (objItems props),
      v ∈ props.map Prod.snd ∨ ∀ b, v ≠ JSValue.obj b := by
  induction props with
  | nil => intro v hv; simp [objItems, itemVals] at hv
  | cons p t ih =>
    intro v hv
    simp only [objItems, List.map, itemVals, List.mem_cons] at hv
    rcases hv with h | h | h
    · refine Or.inr (fun b hb => ?_)
      rw [h] at hb
      exact absurd hb (by intro hx; cases hx)
    · exact Or.inl (by simp only [List.map, List.mem_cons]; exact Or.inl h)
    · rcases ih v (by simpa [objItems] using h) with hm | hn
      · exact Or.inl (List.mem_cons_of_mem _ hm)
      · exact Or.inr hn

theorem itemVals_sub_array (props : List (String × JSValue)) (n : Int) :
    ∀ v ∈ itemVals (arrayItems props n),
      v ∈ props.map Prod.snd ∨ ∀ b, v ≠ JSValue.obj b := by
  intro v hv
  unfold arrayItems at hv
  rw [show (fun i => EItem.bare ((List.lookup (toString i) props).getD JSValue.undef))
      = EItem.bare ∘ (fun i => (List.lookup (toString i) props).getD JSValue.undef) from rfl,
    ← List.map_map, itemVals_map_bare] at hv
  rw [List.mem_map] at hv
  obtain ⟨i, _, hvi⟩ := hv
  cases hl : props.lookup (toString i) with
  | some x =>
    rw [hl] at hvi
    simp only [Option.getD] at hvi
    exact Or.inl (hvi ▸ lookup_mem_snd props (toString i) x hl)
  | none =>
    rw [hl] at hvi
    simp only [Option.getD] at hvi
    refine Or.inr (fun b hb => ?_)
    rw [← hvi] at hb
    cases hb

theorem itemVals_sub (ho : HObj) (wL wR : String) (items : List EItem)
    (hc : compositeParts ho = some (wL, wR, items)) :
    ∀ v ∈ itemVals items, v ∈ childVals ho ∨ ∀ b, v ≠ JSValue.obj b := by
  cases ho with
  | regexp t c => simp [compositeParts] at hc
  | date i c => simp [compositeParts] at hc
  | mapObj es c =>
    simp only [compositeParts, Option.some.injEq, Prod.mk.injEq] at hc
    intro v hv
    rw [← hc.2.2] at hv
    exact Or.inl (itemVals_sub_map es c v hv)
  | setObj es c =>
    simp only [compositeParts, Option.some.injEq, Prod.mk.injEq] at hc
    intro v hv
    rw [← hc.2.2] at hv
    unfold setItems at hv
    rw [itemVals_map_bare] at hv
    exact Or.inl hv
  | plain props iterE c =>
    intro v hv
    cases hlp : lengthProp props with
    | some n =>
      simp only [compositeParts, hlp, Option.some.injEq, Prod.mk.injEq] at hc
      rw [← hc.2.2] at hv
      rcases itemVals_sub_array props n v hv with hm | hn
      · exact Or.inl (by simp only [childVals]; exact List.mem_append_left _ hm)
      · exact Or.inr hn
    | none =>
      cases iterE with
      | some es =>
        simp only [compositeParts, hlp, Option.some.injEq, Prod.mk.injEq] at hc
        rw [← hc.2.2] at hv
        unfold iterItems at hv
        rw [itemVals_map_bare] at hv
        refine Or.inl ?_
        simp only [childVals]
        exact List.mem_append_right _ hv
      | none =>
        simp only [compositeParts, hlp, Option.some.injEq, Prod.mk.injEq] at hc
        rw [← hc.2.2] at hv
        rcases itemVals_sub_obj props v hv with hm | hn
        · exact Or.inl (by simp only [childVals]; exact List.mem_append_left _ hm)
        · exact Or.inr hn

theorem fmtItems_acyc (hp : Heap)
    (F : Formatter → JSValue → FmtState → Except Unit (String × FmtState))
    (G : Formatter → JSValue → CircularIdGenerator → Except Unit (String × CircularIdGenerator))
    (hFG : ∀ f v st, SeenInv hp st.seen v → REq st.seen (F f v st) (G f v st.gen)) :
    ∀ (items : List EItem) (f : Formatter) (st : FmtState),
      (∀ v ∈ itemVals items, SeenInv hp st.seen v) →
      REq st.seen (fmtItems F f items st) (fmtItemsNC G f items st.gen) := by
  intro items
  induction items with
  | nil =>
    intro f st hinv
    exact ⟨rfl, rfl⟩
  | cons it rest ih =>
    intro f st hinv
    cases it with
    | bare v =>
      have hv : SeenInv hp st.seen v := hinv v (by simp [itemVals])
      have hc := hFG (f.getChildFormatter false) v st hv
      cases hA : F (f.getChildFormatter false) v st with
      | error e₁ =>
        cases hB : G (f.getChildFormatter false) v st.gen with
        | error e₂ => simp only [fmtItems, fmtItemsNC, hA, hB]; trivial
        | ok p₂ => rw [hA, hB] at hc; simp [REq] at hc
      | ok p₁ =>
        obtain ⟨s₁, t₁⟩ := p₁
        cases hB : G (f.getChildFormatter false) v st.gen with
        | error e₂ => rw [hA, hB] at hc; simp [REq] at hc
        | ok p₂ =>
          obtain ⟨s₂, g₂⟩ := p₂
          rw [hA, hB] at hc
          simp only [REq] at hc
          obtain ⟨hs, ht⟩ := hc
          subst ht
          have hrest := ih f ⟨st.seen, g₂⟩
            (fun w hw => hinv w (by simp only [itemVals, List.mem_cons]; exact Or.inr hw))
          cases hC : fmtItems F f rest ⟨st.seen, g₂⟩ with
          | error e₁ =>
            cases hD : fmtItemsNC G f rest g₂ with
            | error e₂ => simp only [fmtItems, fmtItemsNC, hA, hB, hC, hD]; trivial
            | ok q₂ => rw [hC, hD] at hrest; simp [REq] at hrest
          | ok q₁ =>
            obtain ⟨u₁, w₁⟩ := q₁
            cases hD : fmtItemsNC G f rest g₂ with
            | error e₂ => rw [hC, hD] at hrest; simp [REq] at hrest
            | ok q₂ =>
              obtain ⟨u₂, g₃⟩ := q₂
              rw [hC, hD] at hrest
              simp only [REq] at hrest
              simp only [fmtItems, fmtItemsNC, hA, hB, hC, hD]
              exact ⟨by rw [hs, hrest.1], hrest.2⟩
    | entry k v sep =>
      have hk : SeenInv hp st.seen k := hinv k (by simp [itemVals])
      have hc := hFG (f.getChildFormatter false) k st hk
      cases hA : F (f.getChildFormatter false) k st with
      | error e₁ =>
        cases hB : G (f.getChildFormatter false) k st.gen with
        | error e₂ => simp only [fmtItems, fmtItemsNC, hA, hB]; trivial
        | ok p₂ => rw [hA, hB] at hc; simp [REq] at hc
      | ok p₁ =>
        obtain ⟨s₁, t₁⟩ := p₁
        cases hB : G (f.getChildFormatter false) k st.gen with
        | error e₂ => rw [hA, hB] at hc; simp [REq] at hc
        | ok p₂ =>
          obtain ⟨s₂, g₂⟩ := p₂
          rw [hA, hB] at hc
          simp only [REq] at hc
          obtain ⟨hs, ht⟩ := hc
          subst ht
          have hvv : SeenInv hp st.seen v :=
            hinv v (by simp [itemVals])
          have hcv := hFG (f.getChildFormatter true) v ⟨st.seen, g₂⟩ hvv
          cases hC : F (f.getChildFormatter true) v ⟨st.seen, g₂⟩ with
          | error e₁ =>
            cases hD : G (f.getChildFormatter true) v g₂ with
            | error e₂ => simp only [fmtItems, fmtItemsNC, hA, hB, hC, hD]; trivial
            | ok q₂ => rw [hC, hD] at hcv; simp [REq] at hcv
          | ok q₁ =>
            obtain ⟨u₁, w₁⟩ := q₁
            cases hD : G (f.getChildFormatter true) v g₂ with
            | error e₂ => rw [hC, hD] at hcv; simp [REq] at hcv
            | ok q₂ =>
              obtain ⟨u₂, g₃⟩ := q₂
              rw [hC, hD] at hcv
              simp only [REq] at hcv
              obtain ⟨hu, hw⟩ := hcv
              subst hw
              have hrest := ih f ⟨st.seen, g₃⟩
                (fun w hw => hinv w (by
                  simp only [itemVals, List.mem_cons]
                  exact Or.inr (Or.inr hw)))
              cases hE : fmtItems F f rest ⟨st.seen, g₃⟩ with
              | error e₁ =>
                cases hG : fmtItemsNC G f rest g₃ with
                | error e₂ => simp only [fmtItems, fmtItemsNC, hA, hB, hC, hD, hE, hG]; trivial
                | ok z₂ => rw [hE, hG] at hrest; simp [REq] at hrest
              | ok z₁ =>
                obtain ⟨a₁, b₁⟩ := z₁
                cases hG : fmtItemsNC G f rest g₃ with
                | error e₂ => rw [hE, hG] at hrest; simp [REq] at hrest
                | ok z₂ =>
                  obtain ⟨a₂, g₄⟩ := z₂
                  rw [hE, hG] at hrest
                  simp only [REq] at hrest
                  simp only [fmtItems, fmtItemsNC, hA, hB, hC, hD, hE, hG]
                  exact ⟨by rw [hs, hu, hrest.1], hrest.2⟩

theorem entriesAlg_acyc (hp : Heap) (rank : Nat → Nat) (hrk : RankOk hp rank)
    (F : Formatter → JSValue → FmtState → Except Unit (String × FmtState))
    (G : Formatter → JSValue → CircularIdGenerator → Except Unit (String × CircularIdGenerator))
    (hFG : ∀ f v st, SeenInv hp st.seen v → REq st.seen (F f v st) (G f v st.gen))
    (f : Formatter) (r : Nat) (ho : HObj) (wL wR : String) (items : List EItem)
    (st : FmtState)
    (hl : hp.lookup r = some ho)
    (hsub : ∀ v ∈ itemVals items, v ∈ childVals ho ∨ ∀ b, v ≠ JSValue.obj b)
    (hinv : SeenInv hp st.seen (JSValue.obj r)) :
    REq st.seen (entriesAlg F f r ho wL wR items st)
      (entriesAlgNC G f r ho wL wR items st.gen) := by
  have hlk : st.seen.lookup r = none := hinv r (Reach.here r)
  have hhas : seenHas st.seen r = false := by
    unfold seenHas
    rw [hlk]
    rfl
  cases hctor : getConstructorName ho with
  | error e =>
    simp only [entriesAlg, entriesAlgNC, hhas, hctor, Bool.false_eq_true, if_false]
    trivial
  | ok name =>
    by_cases hdep : f.currentDepth ≥ f.options.depth
    · simp only [entriesAlg, entriesAlgNC, hhas, hctor, Bool.false_eq_true, if_false,
        if_pos hdep]
      exact ⟨rfl, rfl⟩
    · have hss : seenSet st.seen r (st.gen.generateId r).1
          = (r, (st.gen.generateId r).1) :: st.seen := seenSet_of_not_has hlk
      have hchild : ∀ v ∈ itemVals items,
          SeenInv hp (seenSet st.seen r (st.gen.generateId r).1) v := by
        rw [hss]
        intro v hv
        rcases hsub v hv with hm | hn
        · exact seenInv_child hrk hl hinv hm _
        · exact seenInv_nonobj hn
      have hit := fmtItems_acyc hp F G hFG items f
        ⟨seenSet st.seen r (st.gen.generateId r).1, (st.gen.generateId r).2⟩ hchild
      cases hI : fmtItems F f items
          ⟨seenSet st.seen r (st.gen.generateId r).1, (st.gen.generateId r).2⟩ with
      | error e₁ =>
        cases hJ : fmtItemsNC G f items (st.gen.generateId r).2 with
        | error e₂ =>
          simp only [entriesAlg, entriesAlgNC, hhas, hctor, Bool.false_eq_true, if_false,
            if_neg hdep, hI, hJ]
          trivial
        | ok q₂ => rw [hI, hJ] at hit; simp [REq] at hit
      | ok q₁ =>
        obtain ⟨c₁, u₁⟩ := q₁
        cases hJ : fmtItemsNC G f items (st.gen.generateId r).2 with
        | error e₂ => rw [hI, hJ] at hit; simp [REq] at hit
        | ok q₂ =>
          obtain ⟨c₂, g₂⟩ := q₂
          rw [hI, hJ] at hit
          simp only [REq] at hit
          obtain ⟨hcnt, hu⟩ := hit
          subst hu
          simp only [entriesAlg, entriesAlgNC, hhas, hctor, Bool.false_eq_true, if_false,
            if_neg hdep, hI, hJ]
          refine ⟨by rw [hcnt], ?_⟩
          have : seenDelete (seenSet st.seen r (st.gen.generateId r).1) r = st.seen := by
            rw [hss]
            exact seenDelete_restore hlk
          rw [this]

theorem formatV_acyc (hp : Heap) (rank : Nat → Nat) (hrk : RankOk hp rank) :
    ∀ (fuel : Nat) (f : Formatter) (v : JSValue) (st : FmtState), SeenInv hp st.seen v →
      REq st.seen (formatV hp fuel f v st) (formatVNC hp fuel f v st.gen) := by
  intro fuel
  induction fuel with
  | zero => intro f v st hinv; trivial
  | succ fuel ih =>
    intro f v st hinv
    cases v with
    | undef => exact ⟨rfl, rfl⟩
    | null => exact ⟨rfl, rfl⟩
    | bool b => exact ⟨rfl, rfl⟩
    | num n => exact ⟨rfl, rfl⟩
    | bigintVal n => exact ⟨rfl, rfl⟩
    | str s₀ => exact ⟨rfl, rfl⟩
    | sym s₀ => exact ⟨rfl, rfl⟩
    | fn src => exact ⟨rfl, rfl⟩
    | obj r =>
      cases hl : hp.lookup r with
      | none => simp only [formatV, formatVNC, hl]; trivial
      | some ho =>
        cases ho with
        | regexp text c =>
          simp only [formatV, formatVNC, hl]
          exact ⟨rfl, rfl⟩
        | date iso c =>
          simp only [formatV, formatVNC, hl]
          cases f.formatDate (HObj.date iso c) iso with
          | error e => trivial
          | ok s => exact ⟨rfl, rfl⟩
        | mapObj es c =>
          simp only [formatV, formatVNC, hl]
          exact entriesAlg_acyc hp rank hrk _ _ ih f r _ _ _ _ st hl
            (itemVals_sub _ _ _ _ rfl) hinv
        | setObj es c =>
          simp only [formatV, formatVNC, hl]
          exact entriesAlg_acyc hp rank hrk _ _ ih f r _ _ _ _ st hl
            (itemVals_sub _ _ _ _ rfl) hinv
        | plain props iterE c =>
          simp only [formatV, formatVNC, hl]
          cases hlp : lengthProp props with
          | some n =>
            simp only [hlp]
            exact entriesAlg_acyc hp rank hrk _ _ ih f r _ _ _ _ st hl
              (itemVals_sub _ sLB sRB (arrayItems props n) (by simp [compositeParts, hlp])) hinv
          | none =>
            simp only [hlp]
            cases iterE with
            | some es =>
              exact entriesAlg_acyc hp rank hrk _ _ ih f r _ _ _ _ st hl
                (itemVals_sub _ sLC sRC (iterItems es) (by simp [compositeParts, hlp])) hinv
            | none =>
              exact entriesAlg_acyc hp rank hrk _ _ ih f r _ _ _ _ st hl
                (itemVals_sub _ sLC sRC (objItems props) (by simp [compositeParts, hlp])) hinv

theorem entriesAlg_depth_guard (F : Formatter → JSValue → FmtState → Except Unit (String × FmtState))
    (f : Formatter) (r : Nat) (h : HObj) (wL wR : String) (items : List EItem)
    (st : FmtState) (name : String)
    (hhas : seenHas st.seen r = false)
    (hctor : getConstructorName h = .ok name)
    (hdepth : f.currentDepth ≥ f.options.depth) :
    entriesAlg F f r h wL wR items st
      = .ok (f.formatWithIndent (wrap sLB sRB name) f.options.indent, st) := by
  unfold entriesAlg
  rw [hhas, hctor]
  simp only [Bool.false_eq_true, if_false, if_pos hdepth]

/-- Claim C1: a value placed as its own nested element (`v.self = v`) is formatted without infinite recursion (the formatter is a total function) and the output holds exactly one circular-reference marker at the point of re-entry: `[Circular]` with circular-id display disabled, `[Circular#1]` with it enabled. -/
theorem claim_C1 :
    outOf (formatTop defaultFormatterOptions selfHeap (JSValue.obj 0) initialState) = some selfOutOff ∧
    countMarker selfOutOff = 1 ∧
    hasSub sCircClosed.data selfOutOff.data = true ∧
    outOf (formatTop cidOpts selfHeap (JSValue.obj 0) initialState) = some selfOutOn ∧
    countMarker selfOutOn = 1 ∧
    hasSub sCircOne.data selfOutOn.data = true := by
  decide

/-- Claim C2: for every acyclic heap (acyclicity witnessed by a rank function), a top-level format call agrees with the cycle-machinery-free renderer, so the circular branch is never exercised and no `[Circular]` marker is emitted; on the concrete shared-value example the output string holds no marker even though the shared record appears twice. -/
theorem claim_C2 :
    (∀ (hp : Heap) (rank : Nat → Nat), RankOk hp rank →
        ∀ (opts : FormatterOptions) (v : JSValue) (g : CircularIdGenerator),
        REq [] (formatTop opts hp v ⟨[], g⟩) (formatTopNC opts hp v g)) ∧
    outOf (formatTop defaultFormatterOptions sharedHeap (JSValue.obj 0) initialState)
      = some sharedOutDefault ∧
    countMarker sharedOutDefault = 0 := by
  refine ⟨?_, rfl, by decide⟩
  intro hp rank hrk opts v g
  exact formatV_acyc hp rank hrk (opts.depth + 1) (rootFormatter opts) v ⟨[], g⟩
    (fun x _ => rfl)

/-- Claim C2 witness: the acyclicity theorem applied to the shared-value heap with an explicit rank function. -/
theorem claim_C2_witness :
    RankOk sharedHeap sharedRank ∧
    REq [] (formatTop defaultFormatterOptions sharedHeap (JSValue.obj 0) ⟨[], freshGenerator⟩)
      (formatTopNC defaultFormatterOptions sharedHeap (JSValue.obj 0) freshGenerator) :=
  ⟨by unfold RankOk; decide,
   claim_C2.1 sharedHeap sharedRank (by unfold RankOk; decide) defaultFormatterOptions
     (JSValue.obj 0) freshGenerator⟩

/-- Claim C3 counterexample: with circular ids enabled, formatting a second record after a prior call on the same engine instance yields a different string than a fresh engine with the same configuration. -/
theorem claim_C3_counterexample :
    outOf (formatTop cidOpts twoObjHeap (JSValue.obj 1) afterFirstCall)
      ≠ outOf (formatTop cidOpts twoObjHeap (JSValue.obj 1) initialState) := by
  decide

/-- Claim C3 (amended): a completed call restores the VisitedSet exactly, and with circular-id display disabled a later format call on a reused engine (any surviving generator state) returns the same string as a freshly constructed engine; with ids enabled this fails, because the id generator is a per-instance field surviving across top-level calls. -/
theorem claim_C3 :
    (∀ (hp : Heap) (fuel : Nat) (f : Formatter) (v : JSValue) (st : FmtState)
        (s : String) (st' : FmtState),
        formatV hp fuel f v st = .ok (s, st') → st'.seen = st.seen) ∧
    (∀ (opts : FormatterOptions) (hp : Heap) (v : JSValue) (g : CircularIdGenerator),
        opts.circularId = false →
        outOf (formatTop opts hp v ⟨[], g⟩) = outOf (formatTop opts hp v initialState)) := by
  constructor
  · exact fun hp fuel f v st s st' => formatV_restore hp fuel f v st s st'
  · intro opts hp v g hcid
    have h := formatV_genIrrel hp (opts.depth + 1) (rootFormatter opts) v ⟨[], g⟩
      initialState hcid rfl
    unfold formatTop
    cases hA : formatV hp (opts.depth + 1) (rootFormatter opts) v ⟨[], g⟩ with
    | error e₁ =>
      cases hB : formatV hp (opts.depth + 1) (rootFormatter opts) v initialState with
      | error e₂ => rfl
      | ok p₂ => rw [hA, hB] at h; simp [ResMatch] at h
    | ok p₁ =>
      obtain ⟨s₁, t₁⟩ := p₁
      cases hB : formatV hp (opts.depth + 1) (rootFormatter opts) v initialState with
      | error e₂ => rw [hA, hB] at h; simp [ResMatch] at h
      | ok p₂ =>
        obtain ⟨s₂, t₂⟩ := p₂
        rw [hA, hB] at h
        simp only [ResMatch] at h
        simp only [outOf, h.1]

/-- Claim C3 witness: the amended theorem applied at a concrete surviving generator state. -/
theorem claim_C3_witness :
    outOf (formatTop defaultFormatterOptions twoObjHeap (JSValue.obj 1) ⟨[], ⟨5, [(0, 1)]⟩⟩)
      = outOf (formatTop defaultFormatterOptions twoObjHeap (JSValue.obj 1) initialState) :=
  claim_C3.2 defaultFormatterOptions twoObjHeap (JSValue.obj 1) ⟨5, [(0, 1)]⟩ rfl

/-- Claim C4 is refuted by the code: formatting an object whose `constructor` property is nullish throws (reading `.name` of undefined) instead of falling back to the structural tag; the fallback fires only when a constructor exists but its `name` is nullish. -/
theorem claim_C4_throws :
    formatTop defaultFormatterOptions absentHeap (JSValue.obj 0) initialState = .error () ∧
    outOf (formatTop defaultFormatterOptions nullishHeap (JSValue.obj 0) initialState)
      = some emptyObjOut := by
  exact ⟨rfl, rfl⟩

/-- Claim C5: for every object-typed value the dispatch chain selects exactly one category, namely the earliest category of the fixed priority order whose description holds; in particular a Set, though iterable, is rendered as a unique-element collection. -/
theorem claim_C5 : ∀ (hp : Heap) (v : JSValue),
    (v = JSValue.null ∨ ∃ r h, v = JSValue.obj r ∧ hp.lookup r = some h) →
    classifyObj hp v = firstMatchCat hp v ∧
    (∀ c₁ c₂, classifyObj hp v = some c₁ → classifyObj hp v = some c₂ → c₁ = c₂) := by
  intro hp v hv
  constructor
  · rcases hv with hnull | ⟨r, h, hvr, hl⟩
    · subst hnull
      simp [classifyObj, firstMatchCat, specOrder, List.find?, specPredHolds, isNullV]
    · subst hvr
      cases h with
      | regexp t c =>
        simp [classifyObj, hl, firstMatchCat, specOrder, List.find?, specPredHolds,
          isNullV, isPatternV, heapObjOf]
      | date iso c =>
        simp [classifyObj, hl, firstMatchCat, specOrder, List.find?, specPredHolds,
          isNullV, isPatternV, isDateV, heapObjOf]
      | mapObj es c =>
        simp [classifyObj, hl, firstMatchCat, specOrder, List.find?, specPredHolds,
          isNullV, isPatternV, isDateV, isKVCollV, heapObjOf]
      | setObj es c =>
        simp [classifyObj, hl, firstMatchCat, specOrder, List.find?, specPredHolds,
          isNullV, isPatternV, isDateV, isKVCollV, isUniqueCollV, heapObjOf]
      | plain props iterE c =>
        cases hlp : lengthProp props with
        | some n =>
          simp [classifyObj, hl, hlp, firstMatchCat, specOrder, List.find?, specPredHolds,
            isNullV, isPatternV, isDateV, isKVCollV, isUniqueCollV, hasNumericLength,
            heapObjOf]
        | none =>
          cases iterE with
          | some es =>
            simp [classifyObj, hl, hlp, firstMatchCat, specOrder, List.find?, specPredHolds,
              isNullV, isPatternV, isDateV, isKVCollV, isUniqueCollV, hasNumericLength,
              isIterableV, heapObjOf]
          | none =>
            simp [classifyObj, hl, hlp, firstMatchCat, specOrder, List.find?, specPredHolds,
              isNullV, isPatternV, isDateV, isKVCollV, isUniqueCollV, hasNumericLength,
              isIterableV, heapObjOf]
  · intro c₁ c₂ h₁ h₂
    rw [h₁] at h₂
    exact Option.some_inj.mp h₂

/-- Claim C5 witness: the dispatch theorem applied to a one-element Set. -/
theorem claim_C5_witness :
    classifyObj setHeap (JSValue.obj 0) = firstMatchCat setHeap (JSValue.obj 0) ∧
    (∀ c₁ c₂, classifyObj setHeap (JSValue.obj 0) = some c₁ →
        classifyObj setHeap (JSValue.obj 0) = some c₂ → c₁ = c₂) :=
  claim_C5 setHeap (JSValue.obj 0)
    (Or.inr ⟨0, HObj.setObj [JSValue.num 1] (CtorInfo.named r"Set"), rfl, rfl⟩)

/-- Claim C6: a composite whose identity is not in the VisitedSet, reached at depth at or beyond the configured max depth, renders as the indented bracketed type name, and the state is returned untouched: no VisitedSet entry is added and no CircularId is assigned. -/
theorem claim_C6 : ∀ (hp : Heap) (fuel : Nat) (f : Formatter) (r : Nat) (h : HObj)
    (st : FmtState) (name : String),
    hp.lookup r = some h →
    (compositeParts h).isSome = true →
    f.currentDepth ≥ f.options.depth →
    st.seen.lookup r = none →
    getConstructorName h = .ok name →
    formatV hp (fuel + 1) f (JSValue.obj r) st
      = .ok (f.formatWithIndent (wrap sLB sRB name) f.options.indent, st) := by
  intro hp fuel f r h st name hl hcomp hdepth hseen hctor
  have hhas : seenHas st.seen r = false := by
    unfold seenHas
    rw [hseen]
    rfl
  cases h with
  | regexp t c => simp [compositeParts] at hcomp
  | date iso c => simp [compositeParts] at hcomp
  | mapObj es c =>
    simp only [formatV, hl]
    exact entriesAlg_depth_guard _ f r _ _ _ _ st name hhas hctor hdepth
  | setObj es c =>
    simp only [formatV, hl]
    exact entriesAlg_depth_guard _ f r _ _ _ _ st name hhas hctor hdepth
  | plain props iterE c =>
    simp only [formatV, hl]
    cases hlp : lengthProp props with
    | some n =>
      simp only [hlp]
      exact entriesAlg_depth_guard _ f r _ _ _ _ st name hhas hctor hdepth
    | none =>
      simp only [hlp]
      cases iterE with
      | some es => exact entriesAlg_depth_guard _ f r _ _ _ _ st name hhas hctor hdepth
      | none => exact entriesAlg_depth_guard _ f r _ _ _ _ st name hhas hctor hdepth

/-- Claim C6 witness: the depth-guard theorem applied at max depth 1. -/
theorem claim_C6_witness :
    formatV selfHeap (20 + 1) (rootFormatter depthOneOpts) (JSValue.obj 0) initialState
      = .ok ((rootFormatter depthOneOpts).formatWithIndent (wrap sLB sRB objectName)
              (rootFormatter depthOneOpts).options.indent, initialState) :=
  claim_C6 selfHeap 20 (rootFormatter depthOneOpts) 0 selfObjH initialState objectName
    rfl rfl (by decide) rfl rfl

/-- Claim C7: id assignment is idempotent per identity (a first call allocates the counter value and increments it, later calls return the memoised id without incrementing), and in the shared-value example with ids enabled both occurrences of the shared record render with the same id tag and no circular marker appears. -/
theorem claim_C7 :
    (∀ (g : CircularIdGenerator) (r : Nat), g.generatedIds.lookup r = none →
        (g.generateId r).1 = g.currentId ∧
        (g.generateId r).2.currentId = g.currentId + 1 ∧
        (g.generateId r).2.generatedIds.lookup r = some g.currentId) ∧
    (∀ (g : CircularIdGenerator) (r : Nat),
        (g.generateId r).2.generateId r = ((g.generateId r).1, (g.generateId r).2)) ∧
    outOf (formatTop cidOpts sharedHeap (JSValue.obj 0) initialState) = some sharedOut ∧
    countSub sHash2.data sharedOut.data = 2 ∧
    countMarker sharedOut = 0 := by
  refine ⟨?_, ?_, rfl, by decide, by decide⟩
  · intro g r h
    unfold CircularIdGenerator.generateId
    rw [h]
    refine ⟨rfl, rfl, ?_⟩
    simp [List.lookup]
  · intro g r
    unfold CircularIdGenerator.generateId
    cases hl : g.generatedIds.lookup r with
    | some i => simp [hl]
    | none => simp [List.lookup]

/-- Claim C7 witness: the allocation clause applied to a fresh generator. -/
theorem claim_C7_witness :
    (freshGenerator.generateId 5).1 = freshGenerator.currentId ∧
    (freshGenerator.generateId 5).2.currentId = freshGenerator.currentId + 1 ∧
    (freshGenerator.generateId 5).2.generatedIds.lookup 5 = some freshGenerator.currentId :=
  claim_C7.1 freshGenerator 5 rfl

/-- Claim C8 counterexample: the output is not the literal string given in the claim. -/
theorem claim_C8_counterexample :
    outOf (formatTop defaultFormatterOptions mapHeap (JSValue.obj 0) initialState)
      ≠ some mapClaimStr := by
  decide

/-- Claim C8 (amended): formatting the one-entry map yields a braced block whose single entry joins key and value by the arrow separator and ends in a trailing comma, with the entry indented on its own line; the exact string differs from the one in the claim (see the counterexample). -/
theorem claim_C8 :
    outOf (formatTop defaultFormatterOptions mapHeap (JSValue.obj 0) initialState)
      = some mapActualStr ∧
    hasSub sArrowSep.data mapActualStr.data = true ∧
    hasSub sCommaNl.data mapActualStr.data = true := by
  decide

/-- Claim C9 counterexample: the child of a root with indentRoot false has indentRoot true, so indentRoot is not passed through unmodified. -/
theorem claim_C9_counterexample :
    ((rootFormatter defaultFormatterOptions).getChildFormatter false).options.indentRoot
      ≠ (rootFormatter defaultFormatterOptions).options.indentRoot := by
  decide

/-- Claim C9 (amended): a child formatter inherits max depth, escapeString and circularId unchanged, increments the depth, and accumulates indentation by the initial indent only when the parent has indentRoot set; indentRoot itself is forced to true rather than passed through (see the counterexample). -/
theorem claim_C9 : ∀ (f : Formatter) (skip : Bool),
    (f.getChildFormatter skip).options.depth = f.options.depth ∧
    (f.getChildFormatter skip).options.escapeString = f.options.escapeString ∧
    (f.getChildFormatter skip).options.circularId = f.options.circularId ∧
    (f.getChildFormatter skip).options.indentRoot = true ∧
    (f.getChildFormatter skip).options.indent
      = f.options.indent + (if f.options.indentRoot then f.initialIndent else 0) ∧
    (f.getChildFormatter skip).initialIndent = f.initialIndent ∧
    (f.getChildFormatter skip).currentDepth = f.currentDepth + 1 ∧
    (f.getChildFormatter skip).skipFirstLineIdentation = skip := by
  intro f skip
  exact ⟨rfl, rfl, rfl, rfl, rfl, rfl, rfl, rfl⟩

/-- Claim C10: an object with a numeric `length` property is dispatched to the array-like category, whose entries are exactly the values at decimal indices 0 to length-1 in index order; concretely the record with `foo: 1, length: 0` renders as an empty bracketed sequence without `foo`, and an extra enumerable property of the second example is omitted likewise. -/
theorem claim_C10 :
    (∀ (hp : Heap) (r : Nat) (props : List (String × JSValue))
        (iterE : Option (List JSValue)) (ct : CtorInfo) (n : Int),
        hp.lookup r = some (HObj.plain props iterE ct) →
        lengthProp props = some n →
        classifyObj hp (JSValue.obj r) = some ObjCategory.arrayLikeCat ∧
        compositeParts (HObj.plain props iterE ct) = some (sLB, sRB, arrayItems props n)) ∧
    outOf (formatTop defaultFormatterOptions fooHeap (JSValue.obj 0) initialState) = some fooOut ∧
    hasSub fooKey.data fooOut.data = false ∧
    outOf (formatTop defaultFormatterOptions hiHeap (JSValue.obj 0) initialState) = some hiOut ∧
    hasSub xKey.data hiOut.data = false := by
  refine ⟨?_, rfl, by decide, rfl, by decide⟩
  intro hp r props iterE ct n hl hlen
  constructor
  · simp only [classifyObj, hl, hlen]
  · simp only [compositeParts, hlen]

/-- Claim C10 witness: the dispatch clause applied to the array-like example. -/
theorem claim_C10_witness :
    classifyObj fooHeap (JSValue.obj 0) = some ObjCategory.arrayLikeCat ∧
    compositeParts (HObj.plain fooProps none (CtorInfo.named objectName))
      = some (sLB, sRB, arrayItems fooProps 0) :=
  claim_C10.1 fooHeap 0 fooProps none (CtorInfo.named objectName) 0 rfl rfl

end PrettyPrinter
